import Mathlib

/-!
Verification of the capture-and-redaction pipeline of the gin lane middleware
(`gin-lane.go`).  The Go source is shallowly embedded: strings are modelled as
`List Char` (one element per rune, matching the `utf8.DecodeRune` scan in the
source), buffers as accumulated lists, the log sink as a list of emitted
records, and fallible external steps as `Except` values supplied by the
environment.  Every definition mirrors a function or method of the source
file; external Go standard-library behaviour that the source relies on
(`strings.ReplaceAll`, `strings.TrimSpace`, the RE2 semantics of the six
redaction regular expressions, `bytes.Buffer`, `net/http` header
serialization) is modelled from its documented contract.
-/

namespace GinLane

/-- A record emitted to the lane sink: `l.Debug`, `l.Error` or `l.Tracef`
(the lane itself is out of scope; we record what is sent to it). -/
inductive Rec where
  | debug : String → Rec
  | error : String → Rec
  | trace : String → Rec
deriving DecidableEq

/-- Go `unicode.IsSpace`: the Unicode White_Space property, used by
`strings.TrimSpace`.  The set is the documented finite list
U+0009–U+000D, U+0020, U+0085, U+00A0, U+1680, U+2000–U+200A, U+2028,
U+2029, U+202F, U+205F, U+3000. -/
def goIsSpace (c : Char) : Bool :=
  c.val = 9 || c.val = 10 || c.val = 11 || c.val = 12 || c.val = 13 || c.val = 32 ||
  c.val = 0x85 || c.val = 0xA0 || c.val = 0x1680 ||
  (0x2000 ≤ c.val && c.val ≤ 0x200A) || c.val = 0x2028 || c.val = 0x2029 ||
  c.val = 0x202F || c.val = 0x205F || c.val = 0x3000

/-- The RE2 character class `\s` used inside the redaction patterns:
exactly `[\t\n\f\r ]`. -/
def re2Space (c : Char) : Bool :=
  c.val = 9 || c.val = 10 || c.val = 12 || c.val = 13 || c.val = 32

/-- Go `strings.TrimSpace`: drop White_Space runes from both ends. -/
def trimSpaceL (s : List Char) : List Char :=
  ((s.dropWhile goIsSpace).reverse.dropWhile goIsSpace).reverse

/-- Go `strings.Replace(s, "", new, -1)`: with an empty pattern the
replacement is inserted at the beginning and after every rune,
`new + s[0] + new + s[1] + ... + new`. -/
def interleave (new : List Char) : List Char → List Char
  | [] => new
  | c :: rest => new ++ c :: interleave new rest

/-- Go `strings.Replace(s, old, new, -1)` for nonempty `old`: repeatedly
replace the leftmost occurrence, continuing after the replacement.
The fuel argument makes the recursion structural; callers pass `s.length`,
which is sufficient because every step consumes at least one rune. -/
def raFuel (old new : List Char) : Nat → List Char → List Char
  | 0, s => s
  | _ + 1, [] => []
  | fuel + 1, c :: rest =>
      if old.isPrefixOf (c :: rest) then
        new ++ raFuel old new fuel ((c :: rest).drop old.length)
      else
        c :: raFuel old new fuel rest

/-- Go `strings.ReplaceAll(s, old, new)`. -/
def replaceAllL (s old new : List Char) : List Char :=
  if old.isEmpty then interleave new s else raFuel old new s.length s

/-- RE2 `(?i)` case folding, restricted to the folding orbits of the
characters that occur in the six patterns: the ASCII letters (plus the
Kelvin sign U+212A which folds with `k`, and long s U+017F which folds
with `s`).  All other characters fold to themselves. -/
def foldChar (c : Char) : Char :=
  if 65 ≤ c.val && c.val ≤ 90 then Char.ofNat (c.toNat + 32)
  else if c.val = 0x212A then 'k'
  else if c.val = 0x17F then 's'
  else c

/-- Case-insensitive prefix test (first argument is the pattern literal). -/
def startsWithCI : List Char → List Char → Bool
  | [], _ => true
  | _ :: _, [] => false
  | p :: ps, c :: cs => foldChar c = foldChar p && startsWithCI ps cs

/-- `(.*)$` requires the captured text to contain no newline
(RE2 `.` does not match `\n`, and without `(?m)` `$` is end of text). -/
def noNL (s : List Char) : Bool := s.all (fun c => c ≠ '\n')

/-- Try to match `<marker>\s*:(.*)$` at the current position: the marker
case-insensitively, then a maximal run of `\s` (greediness is forced:
`:` is not in `\s`, so backtracking inside the run cannot succeed),
then `:`; the capture is the rest of the text, which must be
newline-free to satisfy `(.*)$`. -/
def tryMarkerAt (marker s : List Char) : Option (List Char) :=
  if startsWithCI marker s then
    match (s.drop marker.length).dropWhile re2Space with
    | ':' :: rest => if noNL rest then some rest else none
    | _ => none
  else none

/-- Match `(?i)^.*<marker>\s*:(.*)$` (patterns 2–6 of `kRedactExp`).
The leading greedy `.*` cannot cross a newline and, under Go's
leftmost-first semantics, takes the longest prefix that lets the rest
of the pattern match; so the capture comes from the last position at
which `tryMarkerAt` succeeds. -/
def matchSuffixPat (marker : List Char) : List Char → Option (List Char)
  | [] => tryMarkerAt marker []
  | c :: rest =>
      let later := if c = '\n' then none else matchSuffixPat marker rest
      match later with
      | some cap => some cap
      | none => tryMarkerAt marker (c :: rest)

/-- The literal of pattern 1. -/
def authChars : List Char := "authorization".data

/-- Match `(?i)^\s*authorization\s*:(.*)$` (pattern 1 of `kRedactExp`).
`^` anchors at the start of the text; the leading `\s*` run is forced
maximal because no whitespace character case-folds to `a`. -/
def matchAuthPat (s : List Char) : Option (List Char) :=
  let r := s.dropWhile re2Space
  if startsWithCI authChars r then
    match (r.drop authChars.length).dropWhile re2Space with
    | ':' :: rest => if noNL rest then some rest else none
    | _ => none
  else none

/-- One compiled redaction pattern. -/
inductive Pat where
  | auth : Pat
  | suffix : List Char → Pat
deriving DecidableEq

/-- `exp.FindAllStringSubmatch(text, -1)` restricted to group 1.  All six
patterns are anchored at `^` (which, without `(?m)`, matches only at the
start of the text), so there is at most one match and the source's
`len(matches) == 1` test is equivalent to "the pattern matches". -/
def matchPat : Pat → List Char → Option (List Char)
  | .auth, s => matchAuthPat s
  | .suffix m, s => matchSuffixPat m s

/-- The ordered pattern list `kRedactExp` from the source. -/
def kRedactExp : List Pat :=
  [.auth, .suffix "-token".data, .suffix "-auth".data, .suffix "-key".data,
   .suffix "-sess".data, .suffix "-secret".data]

/-- The fixed mask token. -/
def mask : List Char := "********".data

/-- One iteration of the loop body of `redact`: if the pattern matches,
trim the captured value and replace every occurrence of it in the whole
line with the mask. -/
def applyPat (text : List Char) (p : Pat) : List Char :=
  match matchPat p text with
  | none => text
  | some cap => replaceAllL text (trimSpaceL cap) mask

/-- `redact` from the source, on rune lists: fold the loop body over the
ordered pattern list. -/
def redactL (text : List Char) : List Char := kRedactExp.foldl applyPat text

/-- `redact` on strings. -/
def redact (text : String) : String := String.mk (redactL text.data)

/-- Go `strings.Split(s, "\n")`: the list of substrings between newline
separators (`Split("", "\n") = [""]`). -/
def splitOnNL : List Char → List (List Char)
  | [] => [[]]
  | c :: rest =>
      if c = '\n' then [] :: splitOnNL rest
      else
        match splitOnNL rest with
        | [] => [[c]]
        | h :: t => (c :: h) :: t

/-- `strings.ReplaceAll(line, "\r", "")` as used by `dump` and
`laneWriter.Write`. -/
def removeCR (s : List Char) : List Char := replaceAllL s ['\r'] []

/-- `dump` from the source: split the raw bytes on `"\n"`, remove carriage
returns from each line, silently drop lines that are blank after trimming,
and emit one trace record `<context>: <redacted line>` per remaining line. -/
def dump (context : String) (raw : List Char) : List Rec :=
  (splitOnNL raw).filterMap fun line =>
    let text := removeCR line
    if trimSpaceL text = [] then none
    else some (.trace (context ++ ": " ++ String.mk (redactL text)))

/-- `kPanicAnsi` from the source (`"\x1b[31m"`). -/
def kPanicAnsi : List Char := "\x1b[31m".data

/-- `kColorOffAnsi` from the source (`"\x1b[0m"`). -/
def kColorOffAnsi : List Char := "\x1b[0m".data

/-- Lines 198–199 of the source: remove the color-start and color-reset
escape sequences from an extracted line. -/
def stripColor (s : List Char) : List Char :=
  replaceAllL (replaceAllL s kPanicAnsi []) kColorOffAnsi []

/-- The `laneWriter` state: the error-stream designation and the internal
accumulator (`bytes.Buffer`), as a rune list (`laneWriter.Write` walks the
buffer with `utf8.DecodeRune`, so runes are the unit of the scan). -/
structure laneWriter where
  isError : Bool
  buf : List Char
deriving DecidableEq

/-- The effect of the drain loop of `laneWriter.Write` on the buffer,
computed in one pass: the list of completed lines (text before each
newline, in order, newlines not included) and the remaining buffer
content after the last newline.  The source computes the same
decomposition by repeatedly scanning for the first `'\n'`, cutting the
buffer there, and looping until no newline remains. -/
def splitComplete : List Char → List (List Char) × List Char
  | [] => ([], [])
  | c :: rest =>
      if c = '\n' then
        ([] :: (splitComplete rest).1, (splitComplete rest).2)
      else
        match (splitComplete rest).1 with
        | [] => ([], c :: (splitComplete rest).2)
        | h :: t => ((c :: h) :: t, (splitComplete rest).2)

/-- Per completed line, lines 180 and 198–209 of the source: remove
carriage returns, strip the two ANSI sequences, discard the line if it is
blank after trimming, otherwise redact it and emit it at error level when
this adapter is the error stream, else at debug level. -/
def emitLine (isErr : Bool) (line : List Char) : Option Rec :=
  let text := stripColor (removeCR line)
  if trimSpaceL text = [] then none
  else if isErr then some (.error (String.mk (redactL text)))
  else some (.debug (String.mk (redactL text)))

/-- `laneWriter.Write`: append the incoming bytes to the accumulator, then
drain every completed line, emitting one record per non-blank line.
(`bytes.Buffer.Write` is documented to always return a nil error, so the
append step cannot fail; the guarded error path of the source is modelled
separately by `laneWriterWriteChecked`.) -/
def laneWriterWrite (lw : laneWriter) (data : List Char) : laneWriter × List Rec :=
  let parts := splitComplete (lw.buf ++ data)
  (⟨lw.isError, parts.2⟩, parts.1.filterMap (emitLine lw.isError))

/-- A sequence of `laneWriter.Write` calls, collecting all emitted records
in order. -/
def runLaneWrites : laneWriter → List (List Char) → laneWriter × List Rec
  | lw, [] => (lw, [])
  | lw, d :: ds =>
      ((runLaneWrites (laneWriterWrite lw d).1 ds).1,
        (laneWriterWrite lw d).2 ++ (runLaneWrites (laneWriterWrite lw d).1 ds).2)

/-- Lines 162–165 of the source: `written, err = lw.buf.Write(data); if err
!= nil { return }`.  The outcome of the append to the internal accumulator
is supplied as a parameter (`none` = success, which is the only outcome
Go's `bytes.Buffer` can produce); on an error the write returns at once
with that error, before the drain loop, so nothing is emitted. -/
def laneWriterWriteChecked (lw : laneWriter) (data : List Char)
    (appendErr : Option String) : laneWriter × List Rec × Option String :=
  match appendErr with
  | some e => (lw, [], some e)
  | none =>
      let (lw2, recs) := laneWriterWrite lw data
      (lw2, recs, none)

/-- `crlf` from the source (`"\r\n"`). -/
def crlf : String := "\r\n"

/-- The `responseCollector` state: the capture buffer (`written`), the
pending-request field (`req`, holding the request's protocol version and
reset to `none` once the status line and headers have been captured), and
the body-capture flag (`wantBody`). -/
structure responseCollector where
  written : List Char
  req : Option (Nat × Nat)
  wantBody : Bool
deriving DecidableEq

/-- The status line synthesized on the first write (line 217 of the
source): `fmt.Sprintf("HTTP/%d.%d %d %s%s", ProtoMajor, ProtoMinor,
Status(), http.StatusText(Status()), crlf)`.  `http.StatusText` is a
standard-library table and is passed in as `stText`. -/
def statusLine (stText : Nat → String) (maj minor status : Nat) : String :=
  "HTTP/" ++ toString maj ++ "." ++ toString minor ++ " " ++ toString status
    ++ " " ++ stText status ++ crlf

/-- `http.Header.Write` on the collector's cloned header collection
(line 218–219): each header serialized as `Name: value` followed by CRLF.
(The standard library emits the pairs in sorted canonical form; the model
takes the serialized pair list as given.) -/
def headerBlock (hdrs : List (String × String)) : String :=
  String.join (hdrs.map fun h => h.1 ++ ": " ++ h.2 ++ crlf)

/-- `responseCollector.Write`: on the first call (`req` still set) append
the synthesized status line, the header block and a blank line to the
capture buffer and clear `req`; on every call append the raw bytes when
body capture is enabled; always forward the exact bytes to the wrapped
`gin.ResponseWriter` (the second component of the result).  `status` and
`hdrs` are the values `w.Status()` and `w.Header()` hold at the time of
the call.  (The two guarded error returns in the source cannot fire:
both writes go into a `bytes.Buffer`, whose `Write` is documented to
always return a nil error.) -/
def responseCollectorWrite (stText : Nat → String) (status : Nat)
    (hdrs : List (String × String)) (w : responseCollector) (b : List Char) :
    responseCollector × List Char :=
  let w1 :=
    match w.req with
    | some (maj, minor) =>
        { w with
          written := w.written ++ (statusLine stText maj minor status).data
            ++ (headerBlock hdrs).data ++ crlf.data,
          req := none }
    | none => w
  let w2 := if w1.wantBody then { w1 with written := w1.written ++ b } else w1
  (w2, b)

/-- A sequence of `responseCollector.Write` calls; each element carries the
status, headers and body bytes of one call.  The second component is the
concatenation of everything forwarded to the wrapped writer. -/
def collectorRun (stText : Nat → String) :
    responseCollector → List (Nat × List (String × String) × List Char) →
    responseCollector × List Char
  | w, [] => (w, [])
  | w, (st, hd, b) :: rest =>
      ((collectorRun stText (responseCollectorWrite stText st hd w b).1 rest).1,
        (responseCollectorWrite stText st hd w b).2
          ++ (collectorRun stText (responseCollectorWrite stText st hd w b).1 rest).2)

/-- Option bit constants from the source (`1 << iota` with iota starting
at 1 on the second constant). -/
def GinLaneOptionLogNone : Nat := 0

def GinLaneOptionLogRequestResult : Nat := 2

def GinLaneOptionDumpRequest : Nat := 4

def GinLaneOptionDumpRequestBody : Nat := 8

def GinLaneOptionDumpResponse : Nat := 16

def GinLaneOptionDumpResponseBody : Nat := 32

/-- The bitmask test `(opt & mask) != 0` used throughout the middleware. -/
def hasOpt (opt m : Nat) : Bool := (opt &&& m) != 0

/-- The per-request environment of one middleware execution: everything
the middleware consumes from outside the repository.  `reqDump` is the
outcome of `httputil.DumpRequest` (argument: whether the body is
included); `handlerWrites` are the writes the downstream handler chain
performs on `c.Writer` (status and headers at the time of each write,
plus the body bytes); `respParse` is the outcome of
`http.ReadResponse` + `httputil.DumpResponse` on the captured buffer
(arguments: the buffer, and whether the body is included); `stText` is
`http.StatusText`. -/
structure mwEnv where
  reqDump : Bool → Except String String
  handlerWrites : List (Nat × List (String × String) × List Char)
  protoMajor : Nat
  protoMinor : Nat
  finalStatus : Nat
  clientIP : String
  method : String
  requestURI : String
  respParse : List Char → Bool → Except String String
  stText : Nat → String

/-- Lines 98–105 of `ginLaneMiddleware`: if request dumping is enabled,
either log the single trace record `request dump error: <err>` or feed
the rendered request to `dump` with label `request-data`. -/
def reqPhase (opt : Nat) (env : mwEnv) : List Rec :=
  if hasOpt opt (GinLaneOptionDumpRequest ||| GinLaneOptionDumpRequestBody) then
    match env.reqDump (hasOpt opt GinLaneOptionDumpRequestBody) with
    | .error e => [.trace ("request dump error: " ++ e)]
    | .ok raw => dump "request-data" raw.data
  else []

/-- Lines 107–117: install the collector when response dumping is enabled,
then run the handler chain (`c.Next()`), whose writes flow through the
collector when installed, directly to the client otherwise.  Returns the
collector after the chain (if installed) and the bytes the client
received. -/
def chainRun (opt : Nat) (env : mwEnv) : Option responseCollector × List Char :=
  if hasOpt opt (GinLaneOptionDumpResponse ||| GinLaneOptionDumpResponseBody) then
    (some (collectorRun env.stText
        ⟨[], some (env.protoMajor, env.protoMinor), hasOpt opt GinLaneOptionDumpResponseBody⟩
        env.handlerWrites).1,
      (collectorRun env.stText
        ⟨[], some (env.protoMajor, env.protoMinor), hasOpt opt GinLaneOptionDumpResponseBody⟩
        env.handlerWrites).2)
  else (none, (env.handlerWrites.map fun t => t.2.2).flatten)

/-- Lines 119–121: the optional one-line result summary
(`%#v` quotes the request target). -/
def resultPhase (opt : Nat) (env : mwEnv) : List Rec :=
  if hasOpt opt GinLaneOptionLogRequestResult then
    [.trace ("request: client=" ++ env.clientIP ++ " " ++ env.method ++ " \""
      ++ env.requestURI ++ "\" status " ++ toString env.finalStatus)]
  else []

/-- Lines 123–137: when the collector was installed, parse the captured
buffer back into a response and dump it, logging the single trace record
`response dump error: <err>` on a parse or render failure. -/
def respPhase (opt : Nat) (env : mwEnv) : Option responseCollector → List Rec
  | none => []
  | some w =>
      match env.respParse w.written (hasOpt opt GinLaneOptionDumpResponseBody) with
      | .error e => [.trace ("response dump error: " ++ e)]
      | .ok raw => dump "response-data" raw.data

/-- `ginLaneMiddleware`: the full per-request pipeline, returning every
record logged to the derived lane (in order) and the bytes delivered to
the client.  The function is total: no error of the capture/dump
machinery escapes it. -/
def ginLaneMiddleware (opt : Nat) (env : mwEnv) : List Rec × List Char :=
  (reqPhase opt env ++ resultPhase opt env ++ respPhase opt env (chainRun opt env).1,
    (chainRun opt env).2)

/-! ### Helper lemmas -/

lemma interleave_nil : ∀ s : List Char, interleave [] s = s := by
  intro s; induction s <;> simp [interleave, *]

lemma raFuel_self (v : List Char) : ∀ fuel s, raFuel v v fuel s = s := by
  intro fuel
  induction fuel with
  | zero => intro s; rfl
  | succ f ih =>
    intro s
    match s with
    | [] => rfl
    | c :: rest =>
      simp only [raFuel]
      by_cases h : v.isPrefixOf (c :: rest)
      · rw [if_pos h, ih]
        have hp : v <+: (c :: rest) := by rwa [← List.isPrefixOf_iff_prefix]
        obtain ⟨t, ht⟩ := hp
        rw [← ht, List.drop_left]
      · rw [if_neg h, ih]

/-- Replacing a substring by itself is the identity; this is why a pattern
whose trimmed capture is already the mask leaves the line unchanged. -/
lemma replaceAll_self (s v : List Char) : replaceAllL s v v = s := by
  unfold replaceAllL
  by_cases h : v.isEmpty
  · have hv : v = [] := by simpa using h
    subst hv; simp [interleave_nil]
  · simp [h, raFuel_self]

lemma interleave_mem (new : List Char) :
    ∀ s c, c ∈ interleave new s → c ∈ s ∨ c ∈ new := by
  intro s
  induction s with
  | nil => intro c h; exact Or.inr h
  | cons d rest ih =>
    intro c h
    simp only [interleave] at h
    rcases List.mem_append.mp h with h1 | h1
    · exact Or.inr h1
    · rcases List.mem_cons.mp h1 with h2 | h2
      · exact Or.inl (by simp [h2])
      · rcases ih _ h2 with h3 | h3
        · exact Or.inl (List.mem_cons_of_mem _ h3)
        · exact Or.inr h3

lemma raFuel_mem (old new : List Char) :
    ∀ fuel s c, c ∈ raFuel old new fuel s → c ∈ s ∨ c ∈ new := by
  intro fuel
  induction fuel with
  | zero => intro s c h; exact Or.inl h
  | succ f ih =>
    intro s c h
    match s with
    | [] => simp [raFuel] at h
    | d :: rest =>
      simp only [raFuel] at h
      by_cases hp : old.isPrefixOf (d :: rest)
      · rw [if_pos hp] at h
        rcases List.mem_append.mp h with h1 | h1
        · exact Or.inr h1
        · rcases ih _ _ h1 with h2 | h2
          · exact Or.inl (List.drop_subset _ _ h2)
          · exact Or.inr h2
      · rw [if_neg hp] at h
        rcases List.mem_cons.mp h with h1 | h1
        · exact Or.inl (by simp [h1])
        · rcases ih _ _ h1 with h2 | h2
          · exact Or.inl (List.mem_cons_of_mem _ h2)
          · exact Or.inr h2

lemma replaceAll_mem {s old new : List Char} {c : Char}
    (h : c ∈ replaceAllL s old new) : c ∈ s ∨ c ∈ new := by
  unfold replaceAllL at h
  by_cases he : old.isEmpty
  · rw [if_pos he] at h; exact interleave_mem new s c h
  · rw [if_neg he] at h; exact raFuel_mem old new s.length s c h

lemma trimSpace_eq_nil {s : List Char} (h : ∀ c ∈ s, goIsSpace c) :
    trimSpaceL s = [] := by
  unfold trimSpaceL
  have h1 : s.dropWhile goIsSpace = [] := List.dropWhile_eq_nil_iff.mpr h
  simp [h1]

lemma splitComplete_subset :
    ∀ s : List Char,
      (∀ l ∈ (splitComplete s).1, ∀ c ∈ l, c ∈ s) ∧
      (∀ c ∈ (splitComplete s).2, c ∈ s) := by
  intro s
  induction s with
  | nil => simp [splitComplete]
  | cons d rest ih =>
    by_cases hd : d = '\n'
    · subst hd
      constructor
      · intro l hl c hc
        simp only [splitComplete, if_pos rfl] at hl
        rcases List.mem_cons.mp hl with h1 | h1
        · subst h1; simp at hc
        · exact List.mem_cons_of_mem _ (ih.1 _ h1 _ hc)
      · intro c hc
        simp only [splitComplete, if_pos rfl] at hc
        exact List.mem_cons_of_mem _ (ih.2 _ hc)
    · rcases hsp : (splitComplete rest).1 with _ | ⟨h0, t0⟩
      · constructor
        · intro l hl
          simp only [splitComplete, if_neg hd, hsp] at hl
          simp at hl
        · intro c hc
          simp only [splitComplete, if_neg hd, hsp] at hc
          rcases List.mem_cons.mp hc with h1 | h1
          · simp [h1]
          · exact List.mem_cons_of_mem _ (ih.2 _ h1)
      · constructor
        · intro l hl c hc
          simp only [splitComplete, if_neg hd, hsp] at hl
          rcases List.mem_cons.mp hl with h1 | h1
          · subst h1
            rcases List.mem_cons.mp hc with h2 | h2
            · simp [h2]
            · refine List.mem_cons_of_mem _ (ih.1 h0 ?_ _ h2)
              rw [hsp]; exact List.mem_cons_self _ _
          · refine List.mem_cons_of_mem _ (ih.1 l ?_ _ hc)
            rw [hsp]; exact List.mem_cons_of_mem _ h1
        · intro c hc
          simp only [splitComplete, if_neg hd, hsp] at hc
          exact List.mem_cons_of_mem _ (ih.2 _ hc)

lemma emitLine_ws {isErr : Bool} {line : List Char}
    (h : ∀ c ∈ line, goIsSpace c) : emitLine isErr line = none := by
  have hsub : ∀ c ∈ stripColor (removeCR line), goIsSpace c := by
    intro c hc
    unfold stripColor at hc
    rcases replaceAll_mem hc with h1 | h1
    · rcases replaceAll_mem h1 with h2 | h2
      · unfold removeCR at h2
        rcases replaceAll_mem h2 with h3 | h3
        · exact h _ h3
        · simp at h3
      · simp at h2
    · simp at h1
  unfold emitLine
  simp [trimSpace_eq_nil hsub]

lemma laneWriterWrite_ws {lw : laneWriter} {data : List Char}
    (hb : ∀ c ∈ lw.buf, goIsSpace c) (hd : ∀ c ∈ data, goIsSpace c) :
    (laneWriterWrite lw data).2 = [] ∧
    ∀ c ∈ (laneWriterWrite lw data).1.buf, goIsSpace c := by
  have hall : ∀ c ∈ lw.buf ++ data, goIsSpace c := by
    intro c hc
    rcases List.mem_append.mp hc with h | h
    exacts [hb _ h, hd _ h]
  constructor
  · unfold laneWriterWrite
    refine List.filterMap_eq_nil_iff.mpr ?_
    intro l hl
    exact emitLine_ws fun c hc => hall _ ((splitComplete_subset _).1 _ hl _ hc)
  · intro c hc
    unfold laneWriterWrite at hc
    exact hall _ ((splitComplete_subset _).2 _ hc)

lemma runLaneWrites_ws :
    ∀ (datas : List (List Char)) (lw : laneWriter),
      (∀ c ∈ lw.buf, goIsSpace c) → (∀ d ∈ datas, ∀ c ∈ d, goIsSpace c) →
      (runLaneWrites lw datas).2 = [] := by
  intro datas
  induction datas with
  | nil => intro lw _ _; rfl
  | cons d ds ih =>
    intro lw hb hd
    have h1 := laneWriterWrite_ws hb (hd d (List.mem_cons_self _ _))
    have h2 := ih (laneWriterWrite lw d).1 h1.2
      (fun x hx => hd x (List.mem_cons_of_mem _ hx))
    simp [runLaneWrites, h1.1, h2]

lemma length_filterMap_eq_length_filter {α β : Type} (f : α → Option β)
    (p : α → Bool) (hf : ∀ a, (f a).isSome = p a) :
    ∀ l : List α, (l.filterMap f).length = (l.filter p).length := by
  intro l
  induction l with
  | nil => rfl
  | cons a t ih =>
    cases hfa : f a with
    | none =>
      have hp : p a = false := by rw [← hf a, hfa]; rfl
      simp [List.filterMap_cons, List.filter_cons, hfa, hp, ih]
    | some b =>
      have hp : p a = true := by rw [← hf a, hfa]; rfl
      simp [List.filterMap_cons, List.filter_cons, hfa, hp, ih]

lemma responseCollectorWrite_snd (stText : Nat → String) (st : Nat)
    (hd : List (String × String)) (w : responseCollector) (b : List Char) :
    (responseCollectorWrite stText st hd w b).2 = b := rfl

lemma responseCollectorWrite_none {w : responseCollector} (h : w.req = none)
    (stText : Nat → String) (st : Nat) (hd : List (String × String))
    (b : List Char) :
    (responseCollectorWrite stText st hd w b).1
      = if w.wantBody then { w with written := w.written ++ b } else w := by
  simp only [responseCollectorWrite, h]

lemma responseCollectorWrite_some {w : responseCollector} {maj minor : Nat}
    (h : w.req = some (maj, minor)) (stText : Nat → String) (st : Nat)
    (hd : List (String × String)) (b : List Char) :
    (responseCollectorWrite stText st hd w b).1
      = { written := w.written ++ (statusLine stText maj minor st).data
            ++ (headerBlock hd).data ++ crlf.data ++ (if w.wantBody then b else []),
          req := none, wantBody := w.wantBody } := by
  simp only [responseCollectorWrite, h]
  by_cases hb : w.wantBody <;> simp [hb]

lemma collectorRun_forward (stText : Nat → String) :
    ∀ ws w, (collectorRun stText w ws).2 = (ws.map fun t => t.2.2).flatten := by
  intro ws
  induction ws with
  | nil => intro w; rfl
  | cons t rest ih =>
    intro w
    obtain ⟨st, hd, b⟩ := t
    simp [collectorRun, responseCollectorWrite_snd, ih]

lemma collectorRun_fromCaptured (stText : Nat → String) :
    ∀ ws (w : responseCollector), w.req = none →
      (collectorRun stText w ws).1.req = none ∧
      (collectorRun stText w ws).1.wantBody = w.wantBody ∧
      (collectorRun stText w ws).1.written
        = w.written ++ (if w.wantBody then (ws.map fun t => t.2.2).flatten else []) := by
  intro ws
  induction ws with
  | nil => intro w h; simp [collectorRun, h]
  | cons t rest ih =>
    obtain ⟨st, hd, b⟩ := t
    intro w h
    have hw1 := responseCollectorWrite_none h stText st hd b
    by_cases hb : w.wantBody
    · have hw2 : (responseCollectorWrite stText st hd w b).1
          = ⟨w.written ++ b, none, w.wantBody⟩ := by
        rw [hw1]; simp [hb, h]
      have h2 := ih (⟨w.written ++ b, none, w.wantBody⟩ : responseCollector) rfl
      simp only [collectorRun, hw2]
      simp only [h2.1, h2.2.1, h2.2.2]
      simp [hb, List.append_assoc]
    · have hw2 : (responseCollectorWrite stText st hd w b).1 = w := by
        rw [hw1, if_neg hb]
      have h2 := ih w h
      simp only [collectorRun, hw2]
      simp only [h2.1, h2.2.1, h2.2.2]
      simp [hb, h]

/-- Decidable check: on line `y`, pattern `p` either does not match or
captures (after trimming) exactly the mask. -/
def capMaskOk (p : Pat) (y : List Char) : Bool :=
  match matchPat p y with
  | none => true
  | some cap => trimSpaceL cap == mask

lemma applyPat_fixed {y : List Char} {p : Pat} (h : capMaskOk p y = true) :
    applyPat y p = y := by
  unfold capMaskOk at h
  unfold applyPat
  cases hm : matchPat p y with
  | none => rfl
  | some cap =>
    rw [hm] at h
    have ht : trimSpaceL cap = mask := by simpa using h
    show replaceAllL y (trimSpaceL cap) mask = y
    rw [ht]
    exact replaceAll_self y mask

lemma foldl_applyPat_fixed :
    ∀ (ps : List Pat) (y : List Char), (∀ p ∈ ps, capMaskOk p y = true) →
      ps.foldl applyPat y = y := by
  intro ps
  induction ps with
  | nil => intro y _; rfl
  | cons p ps ih =>
    intro y h
    have h1 : applyPat y p = y := applyPat_fixed (h p (List.mem_cons_self _ _))
    simp only [List.foldl_cons, h1]
    exact ih y fun q hq => h q (List.mem_cons_of_mem _ hq)

/-! ### Claims -/

/-- C1: every byte sequence passed to `responseCollector.Write` is
forwarded unchanged to the wrapped real response writer — per call the
forwarded bytes are exactly the written bytes, and over any sequence of
writes, from any collector state (so independently of whether header or
body capture is pending or enabled), the concatenation delivered to the
real writer is exactly the concatenation of the written byte sequences,
in order. -/
theorem c1_capture_non_interference :
    (∀ (stText : Nat → String) (st : Nat) (hd : List (String × String))
        (w : responseCollector) (b : List Char),
        (responseCollectorWrite stText st hd w b).2 = b)
    ∧ ∀ (stText : Nat → String) (w : responseCollector)
        (ws : List (Nat × List (String × String) × List Char)),
        (collectorRun stText w ws).2 = (ws.map fun t => t.2.2).flatten :=
  ⟨fun _ _ _ _ _ => rfl, fun stText w ws => collectorRun_forward stText ws w⟩

set_option maxRecDepth 4000 in
/-- C2: `redact ""` is indeed `""`, but on a matching line whose value
after the colon trims to the empty string the code is NOT safe: the
trimmed capture is empty, and `strings.ReplaceAll(text, "", "********")`
inserts the mask before every character and at the end, garbling the
whole line (field name included) instead of returning it intact. -/
theorem c2_empty_value_garbles :
    redact "" = ""
    ∧ redact "Authorization:"
      = "********A********u********t********h********o********r********i********z********a********t********i********o********n********:********"
    ∧ redact "Authorization:" ≠ "Authorization:" := by decide

/-- C3: from an empty buffer, one write of `"hello\nworld\n"` emits
exactly the two records `hello` then `world`; a write of `"partial"`
emits nothing and holds the bytes; the held bytes are emitted once a
later write supplies the newline. -/
theorem c3_line_adapter_completeness :
    laneWriterWrite ⟨false, []⟩ "hello\nworld\n".data
      = (⟨false, []⟩, [Rec.debug "hello", Rec.debug "world"])
    ∧ laneWriterWrite ⟨false, []⟩ "partial".data = (⟨false, "partial".data⟩, [])
    ∧ laneWriterWrite ⟨false, "partial".data⟩ "\n".data
      = (⟨false, []⟩, [Rec.debug "partial"]) := by decide

/-- C4 counterexample: `"b-key: c-key:::"` matches the `-key` pattern,
yet `redact` is not idempotent on it: the first application masks the
tail after the second `-key:` (leaving `"b-key: c-key********:"`), and a
second application then matches at the first `-key:` — whose capture is
not the mask — and rewrites the line again, to `"b-key: ********"`. -/
theorem c4_idempotence_counterexample :
    (matchPat (Pat.suffix "-key".data) "b-key: c-key:::".data).isSome = true
    ∧ redact (redact "b-key: c-key:::") ≠ redact "b-key: c-key:::" := by decide

/-- C4 (amended): a second application of `redact` leaves a line
unchanged whenever every pattern that still matches the once-redacted
line captures (after trimming) exactly the 8-asterisk mask — replacing
the mask by itself is the identity.  The unrestricted idempotence of the
original claim is refuted by `c4_idempotence_counterexample`. -/
theorem c4_idempotence_amended (s : List Char)
    (h : ∀ p ∈ kRedactExp, capMaskOk p (redactL s) = true) :
    redactL (redactL s) = redactL s :=
  foldl_applyPat_fixed kRedactExp (redactL s) h

/-- Witness for `c4_idempotence_amended` at
`"Authorization: secret-value"`. -/
theorem c4_idempotence_amended_witness :
    (∀ p ∈ kRedactExp, capMaskOk p (redactL "Authorization: secret-value".data) = true)
    ∧ redactL (redactL "Authorization: secret-value".data)
        = redactL "Authorization: secret-value".data :=
  ⟨by decide, c4_idempotence_amended "Authorization: secret-value".data (by decide)⟩

/-- C5 counterexample: on `"x-key: x"` the captured value `x` also occurs
inside the field name, and the replace-all over the whole line rewrites
the field name too: the result does not keep the `x-key:` field name. -/
theorem c5_scope_counterexample :
    redact "x-key: x" = "********-key: ********"
    ∧ "x-key:".data.isPrefixOf (redact "x-key: x").data = false := by decide

/-- C5 (amended): `redact "Authorization: secret-value"` is
`"Authorization: ********"`, and every line matching none of the six
patterns is returned byte-identical.  The original claim's guarantee
that the field name before the colon is never altered does not hold in
general: replacement is a literal replace-all over the whole line, so
the field name is rewritten when the captured value also occurs in it
(`c5_scope_counterexample`). -/
theorem c5_redaction_scope_amended :
    redact "Authorization: secret-value" = "Authorization: ********"
    ∧ ∀ s : List Char, (∀ p ∈ kRedactExp, matchPat p s = none) → redactL s = s := by
  constructor
  · decide
  · intro s h
    refine foldl_applyPat_fixed kRedactExp s ?_
    intro p hp
    simp [capMaskOk, h p hp]

/-- Witness for `c5_redaction_scope_amended` at the non-matching line
`"Content-Type: application/json"`. -/
theorem c5_redaction_scope_amended_witness :
    redact "Authorization: secret-value" = "Authorization: ********"
    ∧ redactL "Content-Type: application/json".data
        = "Content-Type: application/json".data :=
  ⟨c5_redaction_scope_amended.1,
    c5_redaction_scope_amended.2 "Content-Type: application/json".data (by decide)⟩

/-- C6: over any sequence of writes on one collector, the synthesized
status line and header block enter the capture buffer exactly once, from
the first write (using the status and headers current at that write);
afterwards `req` is cleared and every write contributes only its raw
body bytes, and only when body capture is enabled — no second status
line or header block is ever appended. -/
theorem c6_headers_captured_once :
    ∀ (stText : Nat → String) (maj minor : Nat) (wb : Bool) (st : Nat)
      (hd : List (String × String)) (b : List Char)
      (rest : List (Nat × List (String × String) × List Char)),
      ((collectorRun stText ⟨[], some (maj, minor), wb⟩ ((st, hd, b) :: rest)).1).written
        = (statusLine stText maj minor st).data ++ (headerBlock hd).data ++ crlf.data
          ++ (if wb then (((st, hd, b) :: rest).map fun t => t.2.2).flatten else [])
      ∧ ((collectorRun stText ⟨[], some (maj, minor), wb⟩ ((st, hd, b) :: rest)).1).req
          = none := by
  intro stText maj minor wb st hd b rest
  have h1 := responseCollectorWrite_some
    (w := ⟨[], some (maj, minor), wb⟩) rfl stText st hd b
  have h2 := collectorRun_fromCaptured stText rest
    ((responseCollectorWrite stText st hd ⟨[], some (maj, minor), wb⟩ b).1)
    (by rw [h1])
  constructor
  · simp only [collectorRun]
    rw [h2.2.2, h1]
    by_cases hb : wb
    · simp [hb, List.append_assoc]
    · simp [hb]
  · simp only [collectorRun]
    exact h2.1

/-- C7: the first write on a fresh collector appends to the capture
buffer a status line `HTTP/<major>.<minor> <status> <status-text>`
built from the request's protocol version and the status code current
at that write, then the header block with each header in `Name: value`
form, then a blank line (and then the body bytes when body capture is
enabled). -/
theorem c7_first_write_header_form :
    ∀ (stText : Nat → String) (st : Nat) (hd : List (String × String))
      (maj minor : Nat) (wb : Bool) (b : List Char),
      (responseCollectorWrite stText st hd ⟨[], some (maj, minor), wb⟩ b).1.written
        = ("HTTP/" ++ toString maj ++ "." ++ toString minor ++ " " ++ toString st
            ++ " " ++ stText st ++ "\r\n").data
          ++ (String.join (hd.map fun h => h.1 ++ ": " ++ h.2 ++ "\r\n")).data
          ++ "\r\n".data ++ (if wb then b else []) := by
  intro stText st hd maj minor wb b
  rw [responseCollectorWrite_some rfl]
  simp [statusLine, headerBlock, crlf]

/-- C8: the middleware never itself fails a request.  The bytes the
client receives are always exactly the handler's writes (errors change
nothing about the response); a request-dump failure contributes exactly
the single trace record `request dump error: <err>` (and no
`request-data` records); a response parse/dump failure contributes
exactly the single trace record `response dump error: <err>` (and no
`response-data` records); in all cases the middleware runs to
completion — `ginLaneMiddleware` is a total function. -/
theorem c8_middleware_never_fails :
    ∀ (opt : Nat) (env : mwEnv) (e₁ e₂ : String),
      (ginLaneMiddleware opt env).2 = (env.handlerWrites.map fun t => t.2.2).flatten
      ∧ (env.reqDump (hasOpt opt GinLaneOptionDumpRequestBody) = .error e₁ →
          reqPhase opt env
            = if hasOpt opt (GinLaneOptionDumpRequest ||| GinLaneOptionDumpRequestBody)
              then [Rec.trace ("request dump error: " ++ e₁)] else [])
      ∧ ∀ w, (chainRun opt env).1 = some w →
          env.respParse w.written (hasOpt opt GinLaneOptionDumpResponseBody) = .error e₂ →
          respPhase opt env (some w) = [Rec.trace ("response dump error: " ++ e₂)] := by
  intro opt env e₁ e₂
  refine ⟨?_, ?_, ?_⟩
  · unfold ginLaneMiddleware chainRun
    by_cases h : hasOpt opt (GinLaneOptionDumpResponse ||| GinLaneOptionDumpResponseBody)
    · simp [h, collectorRun_forward]
    · simp [h]
  · intro hre
    unfold reqPhase
    by_cases h : hasOpt opt (GinLaneOptionDumpRequest ||| GinLaneOptionDumpRequestBody)
    · simp [h, hre]
    · simp [h]
  · intro w _ hpe
    unfold respPhase
    simp [hpe]

/-- A concrete environment where both the request dump and the response
parse fail. -/
def demoEnv : mwEnv where
  reqDump := fun _ => .error "boom"
  handlerWrites := [(200, [("Content-Length", "2")], "hi".data)]
  protoMajor := 1
  protoMinor := 1
  finalStatus := 200
  clientIP := "127.0.0.1"
  method := "POST"
  requestURI := "/echo"
  respParse := fun _ _ => .error "bad"
  stText := fun _ => "OK"

/-- Witness for `c8_middleware_never_fails`: with request and response
dumping enabled (opt = 20) and both external steps failing, the client
still receives the handler's bytes and each failure yields exactly one
trace record. -/
theorem c8_middleware_never_fails_witness :
    (ginLaneMiddleware 20 demoEnv).2 = "hi".data
    ∧ reqPhase 20 demoEnv = [Rec.trace "request dump error: boom"]
    ∧ respPhase 20 demoEnv (chainRun 20 demoEnv).1
        = [Rec.trace "response dump error: bad"] := by
  have h := c8_middleware_never_fails 20 demoEnv "boom" "bad"
  have hc : (chainRun 20 demoEnv).1
      = some ⟨"HTTP/1.1 200 OK\r\nContent-Length: 2\r\n\r\n".data, none, false⟩ := by
    decide
  refine ⟨?_, ?_, ?_⟩
  · rw [h.1]; decide
  · rw [h.2.1 rfl]; decide
  · rw [hc]
    exact h.2.2 _ hc rfl

/-- C9: when the append of the incoming bytes to the internal
accumulator reports an error, `laneWriter.Write` returns at once: the
state is untouched, no log records are emitted for those bytes, and the
error is surfaced to the caller. -/
theorem c9_append_error_aborts_write :
    ∀ (lw : laneWriter) (data : List Char) (e : String),
      laneWriterWriteChecked lw data (some e) = (lw, [], some e) :=
  fun _ _ _ => rfl

/-- C10: a sequence of writes consisting only of whitespace characters
(newlines included — all of them satisfy `goIsSpace`) emits zero
records through the lane writer; and `dump` emits exactly one trace
record per line that is non-blank after carriage-return removal and
trimming — blank lines produce no record. -/
theorem c10_blank_line_suppression :
    (∀ (isErr : Bool) (datas : List (List Char)),
        (∀ d ∈ datas, ∀ c ∈ d, goIsSpace c) →
        (runLaneWrites ⟨isErr, []⟩ datas).2 = [])
    ∧ ∀ (ctx : String) (raw : List Char),
        (dump ctx raw).length
          = ((splitOnNL raw).filter fun l => !(trimSpaceL (removeCR l)).isEmpty).length := by
  constructor
  · intro isErr datas h
    exact runLaneWrites_ws datas ⟨isErr, []⟩ (by intro c hc; simp at hc) h
  · intro ctx raw
    unfold dump
    apply length_filterMap_eq_length_filter
    intro a
    by_cases h : trimSpaceL (removeCR a) = []
    · simp [h]
    · simp [h]

/-- Witness for `c10_blank_line_suppression` on concrete whitespace-only
writes and a concrete dump. -/
theorem c10_blank_line_suppression_witness :
    (runLaneWrites ⟨false, []⟩ [" \t\n \n".data, "\r\n ".data]).2 = []
    ∧ (dump "request-data" " \r\n\r\nx".data).length
        = ((splitOnNL " \r\n\r\nx".data).filter
            fun l => !(trimSpaceL (removeCR l)).isEmpty).length :=
  ⟨c10_blank_line_suppression.1 false [" \t\n \n".data, "\r\n ".data] (by decide),
    c10_blank_line_suppression.2 "request-data" " \r\n\r\nx".data⟩

end GinLane
